import Mathlib

/-!
Verification of the hierarchical video-analysis core of the `talk_video`
backend (`backend/app/analyzer.py`, class `VideoAnalyzer`).

The embedding is shallow:

* The perceptual hasher `_dhash` is modelled on the 9-column x 8-row
  grayscale grid that `cv2.resize` + `cv2.cvtColor` produce: the opaque
  image-processing steps (crop to ROI, resize, grayscale conversion,
  JPEG encoding) are represented by giving each decoded frame its
  already-downsampled grid of luminance values and its encoded payload.
  The bit-extraction loop and the base-2 string accumulation are
  translated literally.
* `bin(x).count("1")` is the number of 1-digits of `x` in base two,
  modelled with `Nat.digits 2`.
* Python floats on timestamps are modelled by rationals: all timestamp
  arithmetic in the selector (`frame_idx / fps`, subtraction, the 1.0
  second comparison) is exact at the magnitudes involved.
* The external HTTP collaborators (vision description, narrative
  generation) are modelled by outcome oracles: a call either fails (any
  network error, non-2xx status, or JSON parse failure — all of which the
  Python code catches in one `except`) or returns parsed fields.  The
  aggregator's result additionally records whether an external call was
  issued.
-/

/-- The 9-column x 8-row grayscale grid that `_dhash` reads after
`cv2.resize(image, (9, 8))` and grayscale conversion: `g i j` is the
luminance `gray[i, j]` at row `i` (0..7) and column `j` (0..8).  Only
those indices are ever read. -/
def Grid : Type := Nat → Nat → Nat

/-- The bit string built by `_dhash`'s double loop, as a list of 0/1
numbers in the exact order the characters are appended to `hash_str`:
row-major, for each row the 8 adjacent-column comparisons, `1` when
`gray[i, j] > gray[i, j + 1]`. -/
def dhashBits (g : Grid) : List Nat :=
  (List.range 8).foldl (fun acc i =>
    (List.range 8).foldl (fun acc2 j =>
      acc2 ++ [if g i j > g i (j + 1) then 1 else 0]) acc) []

/-- Model of `VideoAnalyzer._dhash`: the value `int(hash_str, 2)` of the bit
string, i.e. the big-endian base-2 reading of `dhashBits`. -/
def _dhash (g : Grid) : Nat :=
  (dhashBits g).foldl (fun a b => a * 2 + b) 0

/-- Model of `VideoAnalyzer._hamming_distance`: `bin(hash1 ^ hash2).count("1")`,
the number of 1-digits of the XOR in base two. -/
def _hamming_distance (hash1 hash2 : Nat) : Nat :=
  (Nat.digits 2 (hash1 ^^^ hash2)).sum

/-- A keyframe record as appended to `selected_frames` in
`_extract_keyframes`: timestamp in seconds, formatted `"mm:ss"` string,
base64 JPEG payload, and the Hamming distance used as change score. -/
structure KeyframeRecord where
  timestamp_sec : ℚ
  timestamp_fmt : String
  image_base64 : String
  change_score : ℚ
deriving DecidableEq

/-- A decoded frame as the selector consumes it.  `roi` is the 9x8
grayscale grid obtained from the frame's centered 50% x 50% crop (the
opaque `cv2` crop/resize/grayscale pipeline is modelled by carrying the
resulting grid); `jpeg` is the base64 string that
`cv2.imencode` + `base64.b64encode` produce for the full frame. -/
structure Frame where
  roi : Grid
  jpeg : String

/-- Python `f"{n:02d}"`: decimal digits, left-padded to width two. -/
def twoDigits (n : Nat) : String :=
  if n < 10 then "0" ++ toString n else toString n

/-- Python `f"{int(t//60):02d}:{int(t%60):02d}"` for a nonnegative time `t`:
minutes are `t` floor-divided by 60, seconds are the floor of the
remainder (Python `int` truncation coincides with floor here because
`frame_time` is nonnegative). -/
def fmtTime (t : ℚ) : String :=
  twoDigits (Int.toNat ⌊t / 60⌋) ++ ":" ++ twoDigits (Int.toNat ⌊t - 60 * (⌊t / 60⌋ : ℚ)⌋)

/-- The mutable loop state of `_extract_keyframes`: `prev_hash` (the
reference hash, `None` before the first sampled frame),
`last_selected_time` (initially `-999.0`), and the accumulated
`selected_frames` list. -/
structure ScanState where
  prev_hash : Option Nat
  last_selected_time : ℚ
  selected : List KeyframeRecord

def initScanState : ScanState :=
  { prev_hash := none, last_selected_time := -999, selected := [] }

/-- The body of the `if frame_idx % check_interval == 0` block of
`_extract_keyframes`, translated clause by clause:

* `curr_hash = self._dhash(roi)`;
* `dist` is `0` unless `prev_hash` is set, in which case it is the
  Hamming distance to `curr_hash`; `is_significant` is true when
  `prev_hash` is unset (bootstrap) or `dist > 5`;
* if significant and `frame_time - last_selected_time >= 1.0`, a record
  is appended, `last_selected_time` and `prev_hash` are updated;
* afterwards, `prev_hash` is set to `curr_hash` only when the frame was
  NOT significant (`if not is_significant`).  A significant frame that
  the 1.0 s gap guard suppressed therefore leaves `prev_hash`
  unchanged. -/
def sampleTick (fps : ℚ) (frame_idx : Nat) (f : Frame) (st : ScanState) : ScanState :=
  let curr_hash := _dhash f.roi
  let dist : Nat :=
    match st.prev_hash with
    | some ph => _hamming_distance ph curr_hash
    | none => 0
  let is_significant : Bool :=
    match st.prev_hash with
    | some ph => decide (5 < _hamming_distance ph curr_hash)
    | none => true
  let frame_time : ℚ := (frame_idx : ℚ) / fps
  let st1 : ScanState :=
    if is_significant = true ∧ 1 ≤ frame_time - st.last_selected_time then
      { prev_hash := some curr_hash,
        last_selected_time := frame_time,
        selected := st.selected ++
          [{ timestamp_sec := frame_time,
             timestamp_fmt := fmtTime frame_time,
             image_base64 := f.jpeg,
             change_score := (dist : ℚ) }] }
    else st
  if is_significant = true then st1
  else { st1 with prev_hash := some curr_hash }

/-- The `while True` read loop of `_extract_keyframes`: frames are
consumed in decode order with their index; every `check_interval`-th
(= 3rd) frame runs `sampleTick`, all others are skipped entirely. -/
def scanFrames (fps : ℚ) : Nat → ScanState → List Frame → ScanState
  | _, st, [] => st
  | idx, st, f :: fs =>
      scanFrames fps (idx + 1) (if idx % 3 = 0 then sampleTick fps idx f st else st) fs

/-- Model of `VideoAnalyzer._extract_keyframes` for an opened capture with frame
rate `fps` and decoded frame list `frames`: run the scan loop, then
apply the hard cap (`if len(selected_frames) > 20: selected_frames =
selected_frames[:20]`). -/
def _extract_keyframes (fps : ℚ) (frames : List Frame) : List KeyframeRecord :=
  let st := scanFrames fps 0 initScanState frames
  if 20 < st.selected.length then st.selected.take 20 else st.selected

/-- The outcome of one vision-description request for one keyframe, as
seen through the single `try/except` of `_analyze_segment`: `fail`
stands for any raised error (network failure, non-2xx status via
`raise_for_status`, malformed JSON, missing fields), `ok` carries the
four fields parsed from a successful reply after code-fence
stripping. -/
inductive VisionOutcome where
  | fail
  | ok (scene : String) (objects : List String) (action : String) (ocr : String)

/-- The outcome of the single narrative-generation request of
`_generate_global_summary`, through its `try/except`. -/
inductive NarrativeOutcome where
  | fail
  | ok (text : String)

/-- The structured observation `_analyze_segment` returns for one
keyframe: the parsed reply fields plus
`data["timestamp"] = frame_info["timestamp_fmt"]`. -/
structure SegmentObservation where
  scene : String
  objects : List String
  action : String
  ocr : String
  timestamp : String
deriving DecidableEq

/-- Model of `VideoAnalyzer._analyze_segment`: on any failure the `except` block
returns `None`; on success the parsed object is annotated with the
source record's formatted timestamp and returned. -/
def _analyze_segment (frame_info : KeyframeRecord) (outcome : VisionOutcome) :
    Option SegmentObservation :=
  match outcome with
  | .fail => none
  | .ok scene objects action ocr =>
      some { scene := scene, objects := objects, action := action, ocr := ocr,
             timestamp := frame_info.timestamp_fmt }

/-- The Analyzer fan-out/fan-in inside `analyze`: one `_analyze_segment`
task per keyframe (the oracle `vision` gives the outcome of the request
for the keyframe at each list position), gathered in list order, then
`[s for s in segments_data if s is not None]`. -/
def segmentsData (frames_info : List KeyframeRecord) (vision : Nat → VisionOutcome) :
    List SegmentObservation :=
  ((frames_info.enum).map (fun p => _analyze_segment p.2 (vision p.1))).filterMap id

/-- Model of `VideoAnalyzer._generate_global_summary`: the returned report string
paired with a flag recording whether the external narrative request was
issued.  An empty observation list short-circuits to the fixed message
with no request; otherwise one request is made and any failure is
replaced by the fixed fallback string. -/
def _generate_global_summary (segments : List SegmentObservation)
    (outcome : NarrativeOutcome) : String × Bool :=
  if segments.isEmpty then ("No analysis data available.", false)
  else
    match outcome with
    | .fail => ("Failed to generate report.", true)
    | .ok text => (text, true)

/-- The two fatal decode failures `analyze` can raise:
`FileNotFoundError` when the path does not exist, `ValueError("Could not
open video")` when `cv2.VideoCapture` cannot open it. -/
inductive DecodeError where
  | fileNotFound
  | couldNotOpen
deriving DecidableEq

/-- The source video as `analyze` + `_extract_keyframes` observe it:
missing path, unopenable capture, or an opened capture with its frame
rate and decoded frame sequence. -/
inductive VideoSource where
  | missing
  | unopenable
  | opened (fps : ℚ) (frames : List Frame)

structure FileInfo where
  filename : String
  duration_sec : ℚ
deriving DecidableEq

/-- The dictionary `analyze` returns: `file_info`, `timeline`,
`report`. -/
structure AnalysisResult where
  file_info : FileInfo
  timeline : List SegmentObservation
  report : String
deriving DecidableEq

/-- Model of `VideoAnalyzer.analyze`: raise on a missing or unopenable video;
otherwise extract keyframes, fan out the per-keyframe vision requests,
drop the failures, generate the global summary, and assemble the result
(`duration_sec` is the last selected keyframe's timestamp, `0` when no
keyframe was selected). -/
def analyze (filename : String) (src : VideoSource)
    (vision : Nat → VisionOutcome) (narrative : NarrativeOutcome) :
    Except DecodeError AnalysisResult :=
  match src with
  | .missing => .error .fileNotFound
  | .unopenable => .error .couldNotOpen
  | .opened fps frames =>
      let frames_info := _extract_keyframes fps frames
      let timeline := segmentsData frames_info vision
      let report := (_generate_global_summary timeline narrative).1
      .ok { file_info :=
              { filename := filename,
                duration_sec :=
                  match frames_info.getLast? with
                  | some r => r.timestamp_sec
                  | none => 0 },
            timeline := timeline,
            report := report }

/-- Loop invariant of the scan: consecutive selected records are at
least 1.0 s apart, and every selected record's timestamp is at most the
last accepted time. -/
def ScanInv (st : ScanState) : Prop :=
  st.selected.Chain' (fun a b => a.timestamp_sec + 1 ≤ b.timestamp_sec) ∧
  ∀ r ∈ st.selected, r.timestamp_sec ≤ st.last_selected_time

/-- A frame whose ROI grid is uniformly zero: its hash is 0. -/
def frameA : Frame := { roi := fun _ _ => 0, jpeg := "a" }

/-- A frame whose ROI grid lights up column 0 of every row: every row
contributes exactly one comparison bit, so its hash differs from
`frameA`'s in 8 bit positions. -/
def frameB : Frame := { roi := fun _ j => if j = 0 then 1 else 0, jpeg := "b" }

/-- Base-2 reading of a list of bits, upper bound: reading bits on top of
an accumulator below `2 ^ n` stays below `2 ^ (n + length)`. -/
lemma foldl_bits_lt (l : List Nat) (h : ∀ b ∈ l, b ≤ 1) :
    ∀ acc n : Nat, acc < 2 ^ n →
      l.foldl (fun a b => a * 2 + b) acc < 2 ^ (n + l.length) := by
  induction l with
  | nil => intro acc n hacc; simpa using hacc
  | cons b t ih =>
    intro acc n hacc
    have hb : b ≤ 1 := h b (List.mem_cons_self b t)
    have hstep : acc * 2 + b < 2 ^ (n + 1) := by
      have : acc + 1 ≤ 2 ^ n := hacc
      calc acc * 2 + b ≤ acc * 2 + 1 := by omega
        _ < (acc + 1) * 2 := by omega
        _ ≤ 2 ^ n * 2 := by omega
        _ = 2 ^ (n + 1) := by ring
    have := ih (fun x hx => h x (List.mem_cons_of_mem b hx)) (acc * 2 + b) (n + 1) hstep
    simpa [List.foldl_cons, Nat.add_assoc, Nat.add_comm, Nat.add_left_comm] using this

/-- Folding `++ [f j]` over a list is appending the mapped list. -/
lemma foldl_append_singleton {α β : Type} (f : α → β) (l : List α) (acc : List β) :
    l.foldl (fun a j => a ++ [f j]) acc = acc ++ l.map f := by
  induction l generalizing acc with
  | nil => simp
  | cons x t ih => simp [ih]

/-- Folding `++ f i` over a list is appending the bound list. -/
lemma foldl_append_bind {α β : Type} (f : α → List β) (l : List α) (acc : List β) :
    l.foldl (fun a i => a ++ f i) acc = acc ++ l.flatMap f := by
  induction l generalizing acc with
  | nil => simp
  | cons x t ih => simp [ih]

/-- The double loop of `_dhash` produces the row-major list of
comparison bits. -/
lemma dhashBits_eq (g : Grid) :
    dhashBits g = (List.range 8).flatMap (fun i =>
      (List.range 8).map (fun j => if g i j > g i (j + 1) then 1 else 0)) := by
  unfold dhashBits
  have hrow : ∀ (i : Nat) (acc : List Nat),
      (List.range 8).foldl (fun acc2 j =>
        acc2 ++ [if g i j > g i (j + 1) then 1 else 0]) acc
        = acc ++ (List.range 8).map (fun j => if g i j > g i (j + 1) then 1 else 0) :=
    fun i acc => foldl_append_singleton _ _ _
  calc (List.range 8).foldl (fun acc i =>
        (List.range 8).foldl (fun acc2 j =>
          acc2 ++ [if g i j > g i (j + 1) then 1 else 0]) acc) []
      = (List.range 8).foldl (fun acc i =>
          acc ++ (List.range 8).map (fun j => if g i j > g i (j + 1) then 1 else 0)) [] := by
        exact List.foldl_ext _ _ [] (fun acc i _ => hrow i acc)
    _ = _ := by simpa using foldl_append_bind _ (List.range 8) []

lemma dhashBits_mem_le_one (g : Grid) : ∀ b ∈ dhashBits g, b ≤ 1 := by
  intro b hb
  rw [dhashBits_eq] at hb
  simp only [List.mem_flatMap, List.mem_map] at hb
  obtain ⟨i, _, j, _, hj⟩ := hb
  subst hj
  split <;> omega

lemma dhash_lt (g : Grid) : _dhash g < 2 ^ 64 := by
  have h := foldl_bits_lt (dhashBits g) (dhashBits_mem_le_one g) 0 0 (by norm_num)
  have hlen : (dhashBits g).length = 64 := by
    simp [dhashBits, List.range_succ]
  rw [hlen] at h
  simpa [_dhash] using h

lemma hamming_self (h : Nat) : _hamming_distance h h = 0 := by
  simp [_hamming_distance, Nat.xor_self]

lemma hamming_symm (a b : Nat) : _hamming_distance a b = _hamming_distance b a := by
  simp [_hamming_distance, Nat.xor_comm]

/-- The base-2 digit sum of a number below `2 ^ n` is at most `n`. -/
lemma digits_two_sum_le {x n : Nat} (hx : x < 2 ^ n) : (Nat.digits 2 x).sum ≤ n := by
  rcases Nat.eq_zero_or_pos x with hx0 | hx0
  · simp [hx0]
  · have hlen : (Nat.digits 2 x).length = Nat.log 2 x + 1 :=
      Nat.digits_len 2 x (by norm_num) (Nat.pos_iff_ne_zero.mp hx0)
    have hlog : Nat.log 2 x < n := Nat.log_lt_of_lt_pow (Nat.pos_iff_ne_zero.mp hx0) hx
    have hmem : ∀ d ∈ Nat.digits 2 x, d ≤ 1 := fun d hd =>
      Nat.lt_succ_iff.mp (Nat.digits_lt_base (by norm_num) hd)
    calc (Nat.digits 2 x).sum ≤ (Nat.digits 2 x).length • 1 :=
          List.sum_le_card_nsmul _ 1 hmem
      _ = (Nat.digits 2 x).length := by simp
      _ ≤ n := by omega

lemma hamming_le_64 {a b : Nat} (ha : a < 2 ^ 64) (hb : b < 2 ^ 64) :
    _hamming_distance a b ≤ 64 :=
  digits_two_sum_le (Nat.xor_lt_two_pow ha hb)

/-- Reading a bit list on top of an accumulator shifts the accumulator
by the list length. -/
lemma foldl_two_shift (l : List Nat) (acc : Nat) :
    l.foldl (fun a b => a * 2 + b) acc
      = acc * 2 ^ l.length + l.foldl (fun a b => a * 2 + b) 0 := by
  induction l generalizing acc with
  | nil => simp
  | cons b t ih =>
    simp only [List.foldl_cons, List.length_cons, Nat.zero_mul, Nat.zero_add]
    rw [ih (acc * 2 + b), ih b]
    ring

/-- Base-2 reading of eight mapped bits as a weighted sum. -/
lemma hrow_gen (b : Nat → Nat) :
    ((List.range 8).map b).foldl (fun a x => a * 2 + x) 0
      = ∑ j ∈ Finset.range 8, b j * 2 ^ (7 - j) := by
  simp only [List.range_succ, List.range_zero, List.map_append, List.map_cons,
    List.map_nil, List.nil_append, List.foldl_append, List.foldl_cons, List.foldl_nil,
    Finset.sum_range_succ, Finset.sum_range_zero]
  norm_num
  ring

/-- Base-2 reading of eight concatenated rows of eight bits each. -/
lemma foldl_flat_rows (r : Nat → List Nat) (hlen : ∀ i, (r i).length = 8) :
    ((List.range 8).flatMap r).foldl (fun a b => a * 2 + b) 0
      = ∑ i ∈ Finset.range 8,
          ((r i).foldl (fun a b => a * 2 + b) 0) * 2 ^ (8 * (7 - i)) := by
  simp only [List.range_succ, List.range_zero, List.nil_append, List.flatMap_append,
    List.flatMap_cons, List.flatMap_nil, List.append_nil, List.foldl_append]
  rw [Finset.sum_range_succ, Finset.sum_range_succ, Finset.sum_range_succ,
    Finset.sum_range_succ, Finset.sum_range_succ, Finset.sum_range_succ,
    Finset.sum_range_succ, Finset.sum_range_succ, Finset.sum_range_zero]
  rw [foldl_two_shift, foldl_two_shift, foldl_two_shift, foldl_two_shift,
    foldl_two_shift, foldl_two_shift, foldl_two_shift]
  simp only [hlen]
  norm_num
  ring

/-- Expansion lemma: `_dhash` is the row-major, most-significant-first concatenation of
the 64 adjacent-column comparison bits: bit (i, j) carries weight
`2 ^ (63 - (8 * i + j))`. -/
lemma dhash_eq_sum (g : Grid) :
    _dhash g = ∑ i ∈ Finset.range 8, ∑ j ∈ Finset.range 8,
      (if g i j > g i (j + 1) then 1 else 0) * 2 ^ (63 - (8 * i + j)) := by
  rw [_dhash, dhashBits_eq]
  rw [foldl_flat_rows _ (fun i => by simp)]
  refine Finset.sum_congr rfl ?_
  intro i hi
  rw [hrow_gen (fun j => if g i j > g i (j + 1) then 1 else 0), Finset.sum_mul]
  refine Finset.sum_congr rfl ?_
  intro j hj
  have hi8 : i < 8 := Finset.mem_range.mp hi
  have hj8 : j < 8 := Finset.mem_range.mp hj
  rw [mul_assoc, ← pow_add]
  congr 2
  omega

/-- What one sampled tick can do to the accumulated list and the last
accepted time: either leave both unchanged, or (when the gap guard
passes) append one record stamped with the tick's frame time. -/
lemma sampleTick_shape (fps : ℚ) (idx : Nat) (f : Frame) (st : ScanState) :
    ((sampleTick fps idx f st).selected = st.selected ∧
     (sampleTick fps idx f st).last_selected_time = st.last_selected_time) ∨
    (∃ rec : KeyframeRecord,
      rec.timestamp_sec = (idx : ℚ) / fps ∧
      1 ≤ (idx : ℚ) / fps - st.last_selected_time ∧
      (sampleTick fps idx f st).selected = st.selected ++ [rec] ∧
      (sampleTick fps idx f st).last_selected_time = (idx : ℚ) / fps) := by
  simp only [sampleTick]
  split
  · split
    next hc =>
      right
      exact ⟨_, rfl, hc.2, rfl, rfl⟩
    next hc =>
      left
      exact ⟨rfl, rfl⟩
  · split
    next hc =>
      right
      exact ⟨_, rfl, hc.2, rfl, rfl⟩
    next hc =>
      left
      exact ⟨rfl, rfl⟩

lemma initScanState_inv : ScanInv initScanState := by
  constructor
  · simp [initScanState]
  · intro r hr
    simp [initScanState] at hr

lemma sampleTick_inv (fps : ℚ) (idx : Nat) (f : Frame) (st : ScanState)
    (h : ScanInv st) : ScanInv (sampleTick fps idx f st) := by
  obtain ⟨hchain, hle⟩ := h
  rcases sampleTick_shape fps idx f st with ⟨hsel, hlast⟩ | ⟨rec, hts, hgap, hsel, hlast⟩
  · exact ⟨by rw [hsel]; exact hchain, fun r hr => by
      rw [hlast]; exact hle r (by rwa [hsel] at hr)⟩
  · constructor
    · rw [hsel, List.chain'_append]
      refine ⟨hchain, List.chain'_singleton rec, ?_⟩
      intro x hx y hy
      have hxmem : x ∈ st.selected := List.mem_of_mem_getLast? hx
      have hy' : rec = y := by simpa using hy
      subst hy'
      have := hle x hxmem
      rw [hts]
      linarith
    · intro r hr
      rw [hsel] at hr
      rw [hlast]
      rcases List.mem_append.mp hr with hr | hr
      · have := hle r hr
        linarith
      · have : r = rec := by simpa using hr
        subst this
        rw [hts]

lemma scanFrames_inv (fps : ℚ) (frames : List Frame) :
    ∀ (idx : Nat) (st : ScanState), ScanInv st → ScanInv (scanFrames fps idx st frames) := by
  induction frames with
  | nil => intro idx st h; exact h
  | cons f fs ih =>
    intro idx st h
    simp only [scanFrames]
    split
    · exact ih (idx + 1) _ (sampleTick_inv fps idx f st h)
    · exact ih (idx + 1) _ h

/-- The scan loop only ever appends to the accumulated list. -/
lemma scanFrames_selected_extend (fps : ℚ) (frames : List Frame) :
    ∀ (idx : Nat) (st : ScanState),
      ∃ l, (scanFrames fps idx st frames).selected = st.selected ++ l := by
  induction frames with
  | nil => intro idx st; exact ⟨[], by simp [scanFrames]⟩
  | cons f fs ih =>
    intro idx st
    simp only [scanFrames]
    split
    · obtain ⟨l, hl⟩ := ih (idx + 1) (sampleTick fps idx f st)
      rcases sampleTick_shape fps idx f st with ⟨hsel, -⟩ | ⟨rec, -, -, hsel, -⟩
      · exact ⟨l, by rw [hl, hsel]⟩
      · exact ⟨[rec] ++ l, by rw [hl, hsel, List.append_assoc]⟩
    · exact ih (idx + 1) st

/-- The first sampled tick of a scan started from the initial state:
`prev_hash` is unset so the frame is significant by bootstrap, the gap
guard passes (`0.0 - (-999.0) >= 1.0`), and the record is stamped with
time `0` and change score `0`. -/
lemma sampleTick_first (fps : ℚ) (f : Frame) :
    sampleTick fps 0 f initScanState =
      { prev_hash := some (_dhash f.roi),
        last_selected_time := 0,
        selected := [{ timestamp_sec := 0, timestamp_fmt := fmtTime 0,
                       image_base64 := f.jpeg, change_score := 0 }] } := by
  norm_num [sampleTick, initScanState]

/-- The head of the selector output on a video with at least one frame
is the bootstrap record of the first frame. -/
lemma extract_head (fps : ℚ) (f : Frame) (fs : List Frame) :
    (_extract_keyframes fps (f :: fs)).head? =
      some { timestamp_sec := 0, timestamp_fmt := fmtTime 0,
             image_base64 := f.jpeg, change_score := 0 } := by
  obtain ⟨l, hl⟩ :=
    scanFrames_selected_extend fps fs 1 (sampleTick fps 0 f initScanState)
  rw [sampleTick_first] at hl
  simp only [scanFrames, _extract_keyframes]
  norm_num
  rw [sampleTick_first, hl]
  simp only [List.singleton_append]
  split
  · rw [show (20 : Nat) = 19 + 1 from rfl, List.take_succ_cons]
    rfl
  · rfl

lemma dhash_frameA : _dhash frameA.roi = 0 := by decide

lemma dhash_frameB : _dhash frameB.roi = 0x8080808080808080 := by decide

lemma hamming_AB : 5 < _hamming_distance (_dhash frameA.roi) (_dhash frameB.roi) := by
  rw [dhash_frameA, dhash_frameB, _hamming_distance]
  norm_num [Nat.digits_def']

/-- Timestamps of surviving observations form an order-preserving
selection of the source records' formatted timestamps. -/
lemma segments_timestamps_sublist (vis : Nat → VisionOutcome) :
    ∀ (l : List KeyframeRecord) (k : Nat),
      ((((l.enumFrom k).filterMap (fun p => _analyze_segment p.2 (vis p.1))).map
        (fun o => o.timestamp))).Sublist (l.map (fun r => r.timestamp_fmt)) := by
  intro l
  induction l with
  | nil => intro k; simp
  | cons r t ih =>
    intro k
    simp only [List.enumFrom_cons, List.filterMap_cons, List.map_cons]
    cases hv : vis k with
    | fail =>
      simp only [_analyze_segment]
      exact (ih (k + 1)).cons _
    | ok s o a c =>
      simp only [_analyze_segment, List.map_cons]
      exact (ih (k + 1)).cons₂ _

/-- C1 counterexample: at 30 fps with frames `[A, A, A, B]`, the sampled
ticks are frames 0 and 3.  Frame 3 is significant (Hamming distance 8 >
5) but falls 0.1 s after the bootstrap keyframe, so the 1.0 s gap guard
suppresses it — and the scan leaves the reference hash at frame 0's
hash instead of advancing it to frame 3's, contrary to the claim that
the reference hash is set to the sampled frame's hash after every
sampled tick. -/
theorem C1_gap_suppressed_tick_keeps_old_reference :
    5 < _hamming_distance (_dhash frameA.roi) (_dhash frameB.roi) ∧
    _dhash frameA.roi ≠ _dhash frameB.roi ∧
    (scanFrames 30 0 initScanState [frameA, frameA, frameA, frameB]).selected.length = 1 ∧
    (scanFrames 30 0 initScanState [frameA, frameA, frameA, frameB]).prev_hash
      = some (_dhash frameA.roi) := by
  have hAB : _dhash frameA.roi ≠ _dhash frameB.roi := by
    rw [dhash_frameA, dhash_frameB]; norm_num
  have hscan : scanFrames 30 0 initScanState [frameA, frameA, frameA, frameB]
      = sampleTick 30 3 frameB (sampleTick 30 0 frameA initScanState) := by
    simp [scanFrames]
  have hsig : (decide (5 < _hamming_distance (_dhash frameA.roi) (_dhash frameB.roi))) = true :=
    decide_eq_true hamming_AB
  have htick : sampleTick 30 3 frameB (sampleTick 30 0 frameA initScanState)
      = sampleTick 30 0 frameA initScanState := by
    rw [sampleTick_first]
    simp only [sampleTick, hsig]
    norm_num
  refine ⟨hamming_AB, hAB, ?_, ?_⟩
  · rw [hscan, htick, sampleTick_first]
    rfl
  · rw [hscan, htick, sampleTick_first]

/-- C2: the returned keyframe list is strictly ordered by ascending
timestamp and no two entries are less than 1.0 second apart. -/
theorem C2_keyframes_strictly_spaced (fps : ℚ) (frames : List Frame) :
    (_extract_keyframes fps frames).Pairwise
      (fun a b => a.timestamp_sec < b.timestamp_sec ∧
        a.timestamp_sec + 1 ≤ b.timestamp_sec) := by
  obtain ⟨hchain, -⟩ := scanFrames_inv fps frames 0 initScanState initScanState_inv
  haveI : IsTrans KeyframeRecord (fun a b => a.timestamp_sec + 1 ≤ b.timestamp_sec) :=
    ⟨fun a b c hab hbc => by exact le_trans (by linarith) hbc⟩
  have hpw := List.chain'_iff_pairwise.mp hchain
  have hpw2 : (scanFrames fps 0 initScanState frames).selected.Pairwise
      (fun a b => a.timestamp_sec < b.timestamp_sec ∧
        a.timestamp_sec + 1 ≤ b.timestamp_sec) :=
    hpw.imp (fun h => ⟨by linarith, h⟩)
  simp only [_extract_keyframes]
  split
  · exact hpw2.sublist (List.take_sublist _ _)
  · exact hpw2

/-- C3: for any opened video, `analyze` returns a well-formed result no
matter what the external vision and narrative calls do; the missing and
unopenable cases are the only raised failures. -/
theorem C3_only_decode_errors_raised (filename : String) (fps : ℚ) (frames : List Frame)
    (vision : Nat → VisionOutcome) (narrative : NarrativeOutcome) :
    (∃ res : AnalysisResult,
        analyze filename (VideoSource.opened fps frames) vision narrative
          = Except.ok res) ∧
    analyze filename VideoSource.missing vision narrative
      = Except.error DecodeError.fileNotFound ∧
    analyze filename VideoSource.unopenable vision narrative
      = Except.error DecodeError.couldNotOpen :=
  ⟨⟨_, rfl⟩, rfl, rfl⟩

/-- C4: the output never has more than 20 records, and is exactly the
earliest-first prefix of the accepted list (never re-sorted). -/
theorem C4_hard_cap_truncation (fps : ℚ) (frames : List Frame) :
    (_extract_keyframes fps frames).length ≤ 20 ∧
    _extract_keyframes fps frames
      = (scanFrames fps 0 initScanState frames).selected.take 20 := by
  simp only [_extract_keyframes]
  split
  next h => exact ⟨List.length_take_le _ _, rfl⟩
  next h =>
    have hle : (scanFrames fps 0 initScanState frames).selected.length ≤ 20 := by omega
    exact ⟨hle, (List.take_of_length_le hle).symm⟩

/-- C5: for all 64-bit hash values `a`, `b`, the Hamming distance (the
population count of `a XOR b`) lies in `[0, 64]`, is symmetric, and is
`0` on equal arguments. -/
theorem C5_hamming_distance_props (a b : Nat) (ha : a < 2 ^ 64) (hb : b < 2 ^ 64) :
    _hamming_distance a b ≤ 64 ∧
    _hamming_distance a b = _hamming_distance b a ∧
    _hamming_distance a a = 0 :=
  ⟨hamming_le_64 ha hb, hamming_symm a b, hamming_self a⟩

/-- Witness for C5 at the concrete hashes 3 and 12. -/
theorem C5_hamming_distance_props_witness :
    _hamming_distance 3 12 ≤ 64 ∧
    _hamming_distance 3 12 = _hamming_distance 12 3 ∧
    _hamming_distance 3 3 = 0 :=
  C5_hamming_distance_props 3 12 (by norm_num) (by norm_num)

/-- C6: `_dhash` emits, for each of the 8 rows and each of the 8
adjacent column pairs, the bit 1 exactly when the left pixel's luminance
is strictly greater than the right's, concatenated row-major
most-significant-first into one integer below `2 ^ 64`; as a function of
the pixel grid it is deterministic by construction. -/
theorem C6_dhash_bit_layout (g : Grid) :
    _dhash g = (∑ i ∈ Finset.range 8, ∑ j ∈ Finset.range 8,
      (if g i j > g i (j + 1) then 1 else 0) * 2 ^ (63 - (8 * i + j))) ∧
    _dhash g < 2 ^ 64 :=
  ⟨dhash_eq_sum g, dhash_lt g⟩

/-- C7: the selector accepts the first sampled frame of any non-empty
video unconditionally, so the output is non-empty and its head is the
bootstrap record. -/
theorem C7_bootstrap_first_frame (fps : ℚ) (f : Frame) (fs : List Frame) :
    (_extract_keyframes fps (f :: fs)).head? =
      some { timestamp_sec := 0, timestamp_fmt := fmtTime 0,
             image_base64 := f.jpeg, change_score := 0 } ∧
    _extract_keyframes fps (f :: fs) ≠ [] := by
  refine ⟨extract_head fps f fs, fun h => ?_⟩
  have h2 := extract_head fps f fs
  rw [h] at h2
  simp at h2

/-- C8: one failed vision request drops only its own segment — the
stage output is exactly the filtered successes in original order, a
failed outcome contributes nothing, and a successful outcome yields the
parsed observation stamped with its source record's formatted
timestamp. -/
theorem C8_per_segment_failure_isolated (recs : List KeyframeRecord)
    (vision : Nat → VisionOutcome) :
    segmentsData recs vision
      = recs.enum.filterMap (fun p => _analyze_segment p.2 (vision p.1)) ∧
    (∀ rec : KeyframeRecord, _analyze_segment rec VisionOutcome.fail = none) ∧
    (∀ (rec : KeyframeRecord) (scene : String) (objects : List String)
        (action ocr : String),
        _analyze_segment rec (VisionOutcome.ok scene objects action ocr)
          = some { scene := scene, objects := objects, action := action, ocr := ocr,
                   timestamp := rec.timestamp_fmt }) ∧
    (((segmentsData recs vision).map (fun o => o.timestamp))).Sublist
      (recs.map (fun r => r.timestamp_fmt)) := by
  refine ⟨?_, fun rec => rfl, fun rec s o a c => rfl, ?_⟩
  · simp [segmentsData, List.filterMap_map]
  · have h := segments_timestamps_sublist vision recs 0
    simpa [segmentsData, List.filterMap_map, List.enum] using h

/-- C9: an empty observation list short-circuits the aggregator to the
fixed no-analyzable-data message with no external call; in particular
when every vision request fails the timeline is empty. -/
theorem C9_empty_timeline_short_circuit (recs : List KeyframeRecord)
    (narrative : NarrativeOutcome) :
    _generate_global_summary [] narrative = ("No analysis data available.", false) ∧
    segmentsData recs (fun _ => VisionOutcome.fail) = [] := by
  refine ⟨rfl, ?_⟩
  simp [segmentsData, _analyze_segment]

/-- C10: the first (bootstrap) record of any selector output has change
score `0.0`, since no reference hash exists when it is accepted. -/
theorem C10_bootstrap_score_zero (fps : ℚ) (frames : List Frame) (r : KeyframeRecord)
    (h : (_extract_keyframes fps frames).head? = some r) : r.change_score = 0 := by
  cases frames with
  | nil => simp [_extract_keyframes, scanFrames, initScanState] at h
  | cons f fs =>
    rw [extract_head fps f fs] at h
    injection h with h2
    rw [← h2]

/-- Witness for C10 at a concrete one-frame video. -/
theorem C10_bootstrap_score_zero_witness :
    ({ timestamp_sec := 0, timestamp_fmt := fmtTime 0, image_base64 := "x",
       change_score := 0 } : KeyframeRecord).change_score = 0 :=
  C10_bootstrap_score_zero 1 [{ roi := fun _ _ => 0, jpeg := "x" }]
    { timestamp_sec := 0, timestamp_fmt := fmtTime 0, image_base64 := "x",
      change_score := 0 }
    (by rw [extract_head])
